import Mathlib

/-!
Verification of the OpenSim `Frame` abstraction (`src/OpenSim/Simulation/Model/Frame.h`).

A `Frame` is a right-handed orthogonal reference frame.  The header declares the
public spatial operations (`getGroundTransform`, `findTransformBetween`,
`expressVectorInAnotherFrame`, `findLocationInAnotherFrame`, `findBaseFrame`,
`findTransformInBaseFrame`) and the per-variant extension points
(`calcGroundTransform`, `extendFindBaseFrame`, `extendFindTransformInBaseFrame`).
The header carries only one inline body — `getGroundTransform` delegates to
`calcGroundTransform` — so the remaining operation bodies and the concrete frame
variants are modelled from the specification, as marked on each definition.

Rigid transforms are embedded with an explicit 3×3 rotation matrix and a
translation 3-vector over ℚ; the frame topology is an arena of frame
descriptions indexed by ℕ whose attached-to edges always point to a
smaller index, which makes the hierarchy acyclic by construction.
-/

namespace FrameSpec

/-- Coordinates of a 3-vector (SimTK::Vec3). -/
abbrev Vec3 := Fin 3 → ℚ

/-- A 3×3 matrix (the rotational part of a SimTK::Transform). -/
abbrev Mat3 := Matrix (Fin 3) (Fin 3) ℚ

/-- A rigid transform: rotation matrix `R` and translation `p`
(SimTK::Transform).  `X_GF` maps coordinates expressed in frame F to
coordinates expressed in frame G via `v_G = R * v_F + p`. -/
structure Transform where
  R : Mat3
  p : Vec3

/-- The identity transform. -/
def Transform.identity : Transform := ⟨1, 0⟩

/-- Composition of rigid transforms, child-first: `(compose X2 X1)` first
applies `X1` and then `X2`, matching SimTK's `X2 * X1`. -/
def Transform.compose (X2 X1 : Transform) : Transform :=
  ⟨X2.R * X1.R, X2.R.mulVec X1.p + X2.p⟩

/-- Inverse of a rigid transform whose rotation is orthonormal:
transpose the rotation and counter-rotate the negated translation. -/
def Transform.inverse (X : Transform) : Transform :=
  ⟨X.R.transpose, -(X.R.transpose.mulVec X.p)⟩

/-- Full homogeneous application of a transform to a point:
rotate then translate. -/
def Transform.applyPoint (X : Transform) (pt : Vec3) : Vec3 :=
  X.R.mulVec pt + X.p

/-- The data-model invariant on a transform's rotation: it is orthonormal
(both `Rᵀ R = 1` and `R Rᵀ = 1`). -/
def Transform.orthonormal (X : Transform) : Prop :=
  X.R.transpose * X.R = 1 ∧ X.R * X.R.transpose = 1

/-- Squared Euclidean length of a 3-vector. -/
def normSq (v : Vec3) : ℚ :=
  Matrix.dotProduct v v

/-- Euclidean length of a 3-vector. -/
noncomputable def enorm (v : Vec3) : ℝ :=
  Real.sqrt ((normSq v : ℚ) : ℝ)

/-- Modelled from the spec: the two concrete Frame variants (absent from
`src`, which holds only the abstract `Frame` class).  A grounded variant
reads its pose directly from the state; an attached variant holds the arena
index of its parent frame plus an immutable local offset transform. -/
inductive FrameKind where
  | grounded : FrameKind
  | attached (parent : ℕ) (offset : Transform) : FrameKind

/-- Modelled from the spec: the frozen frame topology (model assembly is
external to `src`).  Frames live in an arena indexed by ℕ; the `wf` field is
the spec's acyclic-forest invariant, realised by making every attached-to
edge point to a strictly smaller index. -/
structure Model where
  frames : ℕ → FrameKind
  wf : ∀ i p off, frames i = .attached p off → p < i

/-- Modelled from the spec: the external dynamical state (SimTK::State) —
an opaque versioned snapshot exposing a stamp and, for each grounded frame,
its raw pose. -/
structure State where
  stamp : ℕ
  pose : ℕ → Transform

/-- `calcGroundTransform` (Frame.h:162-163, pure virtual; variant bodies
modelled from the spec).  Grounded case reads the pose directly from the
state; attached case composes the parent's ground transform with the fixed
local offset, child-first: `parent.getGroundTransform(state) ∘ localOffset`. -/
def Model.calcGroundTransform (m : Model) (s : State) (i : ℕ) : Transform :=
  match h : m.frames i with
  | .attached p off => Transform.compose (m.calcGroundTransform s p) off
  | .grounded => s.pose i
termination_by i
decreasing_by exact m.wf i p off h

/-- `getGroundTransform` (Frame.h:71-73): returns `calcGroundTransform(state)`. -/
def Model.getGroundTransform (m : Model) (s : State) (i : ℕ) : Transform :=
  m.calcGroundTransform s i

/-- Modelled from the spec: the body of `findTransformBetween`
(Frame.h:88-89 declares it; the translation unit with its body is absent
from `src`).  `X_AF = inverse(X_GA) ∘ X_GF`, with ground as the pivot. -/
def Model.findTransformBetween (m : Model) (s : State) (i other : ℕ) : Transform :=
  Transform.compose (Transform.inverse (m.getGroundTransform s other))
    (m.getGroundTransform s i)

/-- Modelled from the spec: the body of `expressVectorInAnotherFrame`
(Frame.h:105-106 declares it; its body is absent from `src`).  Applies only
the rotational component: `rotation(X_AF) * vec`. -/
def Model.expressVectorInAnotherFrame (m : Model) (s : State) (vec : Vec3)
    (i other : ℕ) : Vec3 :=
  (m.findTransformBetween s i other).R.mulVec vec

/-- Modelled from the spec: the body of `findLocationInAnotherFrame`
(Frame.h:120-121 declares it; its body is absent from `src`).  Full
homogeneous application `X_AF * point`. -/
def Model.findLocationInAnotherFrame (m : Model) (s : State) (point : Vec3)
    (i other : ℕ) : Vec3 :=
  (m.findTransformBetween s i other).applyPoint point

/-- Modelled from the spec: the body of `findBaseFrame` (Frame.h:140
declares it) together with the variants' `extendFindBaseFrame`
(Frame.h:166, pure virtual).  A grounded frame returns itself; an attached
frame delegates to its parent. -/
def Model.findBaseFrame (m : Model) (i : ℕ) : ℕ :=
  match h : m.frames i with
  | .attached p _ => m.findBaseFrame p
  | .grounded => i
termination_by i
decreasing_by exact m.wf i p _ h

/-- Modelled from the spec: the body of `findTransformInBaseFrame`
(Frame.h:148 declares it) together with the variants'
`extendFindTransformInBaseFrame` (Frame.h:167, pure virtual).  Identity if
self is base; otherwise `X_BP ∘ X_PF`, composing the parent's own result
with this frame's fixed local offset, child-first. -/
def Model.findTransformInBaseFrame (m : Model) (i : ℕ) : Transform :=
  match h : m.frames i with
  | .attached p off => Transform.compose (m.findTransformInBaseFrame p) off
  | .grounded => Transform.identity
termination_by i
decreasing_by exact m.wf i p off h

/-- Two frame descriptions agree up to translation: same variant, same
parent, and the same offset rotation — the offset translations are free. -/
def FrameKind.rotEq : FrameKind → FrameKind → Prop
  | .grounded, .grounded => True
  | .attached p1 off1, .attached p2 off2 => p1 = p2 ∧ off1.R = off2.R
  | _, _ => False

/-- The data-model invariant on an assembled topology: every attached
frame's fixed local offset has an orthonormal rotation. -/
def Model.proper (m : Model) : Prop :=
  ∀ i p off, m.frames i = .attached p off → off.orthonormal

/-- The data-model invariant on a state snapshot: every raw pose it serves
has an orthonormal rotation. -/
def State.proper (s : State) : Prop :=
  ∀ i, (s.pose i).orthonormal

/-- Modelled from the spec: the cache layer (absent from `src`).  Entries
are keyed by (frame identity, state stamp) and hold the last-computed
ground transform. -/
structure Cache where
  entries : List (ℕ × ℕ × Transform)

/-- Look a frame's ground transform up under a given state stamp. -/
def Cache.lookup (c : Cache) (i stamp : ℕ) : Option Transform :=
  (c.entries.find? fun e => e.1 == i && e.2.1 == stamp).map fun e => e.2.2

/-- A cache is consistent with a model and a state when every entry
carrying the state's stamp holds that frame's ground transform. -/
def Cache.consistent (c : Cache) (m : Model) (s : State) : Prop :=
  ∀ e, e ∈ c.entries → e.2.1 = s.stamp →
    e.2.2 = m.calcGroundTransform s e.1

/-- Modelled from the spec: the memoizing ground-transform query (the cache
layer is absent from `src`; `getGroundTransform` in Frame.h:71-73 delegates
to the variant's `calcGroundTransform`, whose caching body is external).
A hit returns the stored value unchanged; a miss computes and stores.  The
final component counts how many times the underlying ground-transform
computation ran during the call. -/
def Model.getGroundTransformCached (m : Model) (s : State) (i : ℕ)
    (c : Cache) : Transform × Cache × ℕ :=
  match c.lookup i s.stamp with
  | some X => (X, c, 0)
  | none =>
    (m.calcGroundTransform s i,
      ⟨(i, s.stamp, m.calcGroundTransform s i) :: c.entries⟩, 1)

/-- Length of a frame's ancestor chain: zero for a grounded frame, one more
than the parent's depth for an attached frame. -/
def Model.depth (m : Model) (i : ℕ) : ℕ :=
  match h : m.frames i with
  | .attached p _ => m.depth p + 1
  | .grounded => 0
termination_by i
decreasing_by exact m.wf i p _ h

/-- Fuel-bounded ground-transform computation: each recursive step into a
parent consumes one unit of fuel; exhausted fuel reports failure. -/
def Model.calcGroundTransformFuel (m : Model) (s : State) :
    ℕ → ℕ → Option Transform
  | 0, _ => none
  | fuel + 1, i =>
    match m.frames i with
    | .attached p off =>
      (m.calcGroundTransformFuel s fuel p).map fun XP =>
        Transform.compose XP off
    | .grounded => some (s.pose i)

/-- Fuel-bounded base-frame resolution. -/
def Model.findBaseFrameFuel (m : Model) : ℕ → ℕ → Option ℕ
  | 0, _ => none
  | fuel + 1, i =>
    match m.frames i with
    | .attached p _ => m.findBaseFrameFuel fuel p
    | .grounded => some i

/-- Fuel-bounded transform-in-base-frame resolution. -/
def Model.findTransformInBaseFrameFuel (m : Model) :
    ℕ → ℕ → Option Transform
  | 0, _ => none
  | fuel + 1, i =>
    match m.frames i with
    | .attached p off =>
      (m.findTransformInBaseFrameFuel fuel p).map fun XP =>
        Transform.compose XP off
    | .grounded => some Transform.identity

/-- Fuel-bounded `getGroundTransform`. -/
def Model.getGroundTransformFuel (m : Model) (s : State) (fuel i : ℕ) :
    Option Transform :=
  m.calcGroundTransformFuel s fuel i

/-- Fuel-bounded `findTransformBetween`. -/
def Model.findTransformBetweenFuel (m : Model) (s : State)
    (fuel i other : ℕ) : Option Transform :=
  (m.calcGroundTransformFuel s fuel other).bind fun XA =>
    (m.calcGroundTransformFuel s fuel i).map fun XF =>
      Transform.compose XA.inverse XF

/-- Fuel-bounded `expressVectorInAnotherFrame`. -/
def Model.expressVectorInAnotherFrameFuel (m : Model) (s : State)
    (vec : Vec3) (fuel i other : ℕ) : Option Vec3 :=
  (m.findTransformBetweenFuel s fuel i other).map fun X => X.R.mulVec vec

/-- Fuel-bounded `findLocationInAnotherFrame`. -/
def Model.findLocationInAnotherFrameFuel (m : Model) (s : State)
    (point : Vec3) (fuel i other : ℕ) : Option Vec3 :=
  (m.findTransformBetweenFuel s fuel i other).map fun X => X.applyPoint point

/-! ### Concrete witness data: a grounded frame 0 with frame 1 attached to it -/

/-- Witness offset: identity rotation, translation (1,1,1). -/
def offW : Transform := ⟨1, fun _ => 1⟩

/-- Witness offset with the same rotation as `offW` but a different
translation (2,2,2). -/
def offW2 : Transform := ⟨1, fun _ => 2⟩

/-- Witness topology: frame 0 grounded, frame 1 attached to frame 0 with
offset `offW`, all other indices grounded. -/
def WM : Model :=
  ⟨fun i => if i = 1 then .attached 0 offW else .grounded, by
    intro i p off h
    by_cases hi : i = 1
    · subst hi
      simp only [if_pos rfl] at h
      cases h
      omega
    · simp [hi] at h⟩

/-- Witness topology agreeing with `WM` up to offset translation. -/
def WM2 : Model :=
  ⟨fun i => if i = 1 then .attached 0 offW2 else .grounded, by
    intro i p off h
    by_cases hi : i = 1
    · subst hi
      simp only [if_pos rfl] at h
      cases h
      omega
    · simp [hi] at h⟩

/-- Witness state: stamp 0, every pose the identity transform. -/
def SW : State := ⟨0, fun _ => Transform.identity⟩

/-- Witness state with the same pose rotations as `SW` but translated
poses. -/
def SW2 : State := ⟨0, fun _ => ⟨1, fun _ => 3⟩⟩

/-- Witness vector (1,1,1). -/
def vecW : Vec3 := fun _ => 1

/-- The empty cache. -/
def emptyCache : Cache := ⟨[]⟩

/-! ### Unfolding lemmas for the recursive traversals -/

theorem calcGroundTransform_attached (m : Model) (s : State) (i p : ℕ)
    (off : Transform) (h : m.frames i = .attached p off) :
    m.calcGroundTransform s i =
      Transform.compose (m.calcGroundTransform s p) off := by
  rw [Model.calcGroundTransform.eq_def]
  split <;> simp_all

theorem calcGroundTransform_grounded (m : Model) (s : State) (i : ℕ)
    (h : m.frames i = .grounded) :
    m.calcGroundTransform s i = s.pose i := by
  rw [Model.calcGroundTransform.eq_def]
  split <;> simp_all

theorem findBaseFrame_attached (m : Model) (i p : ℕ)
    (off : Transform) (h : m.frames i = .attached p off) :
    m.findBaseFrame i = m.findBaseFrame p := by
  rw [Model.findBaseFrame.eq_def]
  split <;> simp_all

theorem findBaseFrame_grounded (m : Model) (i : ℕ)
    (h : m.frames i = .grounded) :
    m.findBaseFrame i = i := by
  rw [Model.findBaseFrame.eq_def]
  split <;> simp_all

theorem findTransformInBaseFrame_attached (m : Model) (i p : ℕ)
    (off : Transform) (h : m.frames i = .attached p off) :
    m.findTransformInBaseFrame i =
      Transform.compose (m.findTransformInBaseFrame p) off := by
  rw [Model.findTransformInBaseFrame.eq_def]
  split <;> simp_all

theorem findTransformInBaseFrame_grounded (m : Model) (i : ℕ)
    (h : m.frames i = .grounded) :
    m.findTransformInBaseFrame i = Transform.identity := by
  rw [Model.findTransformInBaseFrame.eq_def]
  split <;> simp_all

theorem depth_attached (m : Model) (i p : ℕ) (off : Transform)
    (h : m.frames i = .attached p off) :
    m.depth i = m.depth p + 1 := by
  rw [Model.depth.eq_def]
  split <;> simp_all

theorem depth_grounded (m : Model) (i : ℕ) (h : m.frames i = .grounded) :
    m.depth i = 0 := by
  rw [Model.depth.eq_def]
  split <;> simp_all

/-! ### Rigid-transform algebra -/

theorem Transform.orthonormal_identity : Transform.identity.orthonormal := by
  constructor <;> simp [Transform.identity]

theorem Transform.orthonormal_compose (X2 X1 : Transform)
    (h2 : X2.orthonormal) (h1 : X1.orthonormal) :
    (Transform.compose X2 X1).orthonormal := by
  obtain ⟨h2l, h2r⟩ := h2
  obtain ⟨h1l, h1r⟩ := h1
  constructor
  · calc (X2.R * X1.R).transpose * (X2.R * X1.R)
        = X1.R.transpose * (X2.R.transpose * X2.R) * X1.R := by
          rw [Matrix.transpose_mul]; simp only [mul_assoc]
      _ = 1 := by rw [h2l, mul_one, h1l]
  · calc (X2.R * X1.R) * (X2.R * X1.R).transpose
        = X2.R * (X1.R * X1.R.transpose) * X2.R.transpose := by
          rw [Matrix.transpose_mul]; simp only [mul_assoc]
      _ = 1 := by rw [h1r, mul_one, h2r]

theorem Transform.orthonormal_inverse (X : Transform) (h : X.orthonormal) :
    X.inverse.orthonormal := by
  obtain ⟨hl, hr⟩ := h
  constructor
  · simpa [Transform.inverse] using hr
  · simpa [Transform.inverse] using hl

theorem Transform.inverse_compose_self (X : Transform) (h : X.orthonormal) :
    Transform.compose X.inverse X = Transform.identity := by
  obtain ⟨hl, _⟩ := h
  simp [Transform.compose, Transform.inverse, Transform.identity, hl,
    Matrix.mulVec_neg]

theorem Transform.inverse_inverse (X : Transform) (h : X.orthonormal) :
    X.inverse.inverse = X := by
  obtain ⟨_, hr⟩ := h
  simp [Transform.inverse, Matrix.mulVec_neg, Matrix.mulVec_mulVec, hr,
    Matrix.one_mulVec]

theorem Transform.inverse_compose (X2 X1 : Transform)
    (h2 : X2.orthonormal) (h1 : X1.orthonormal) :
    (Transform.compose X2 X1).inverse =
      Transform.compose X1.inverse X2.inverse := by
  obtain ⟨h2l, _⟩ := h2
  simp only [Transform.compose, Transform.inverse, Matrix.transpose_mul]
  refine congrArg₂ Transform.mk rfl ?_
  simp [Matrix.mulVec_add, Matrix.mulVec_neg, Matrix.mulVec_mulVec, mul_assoc,
    h2l, Matrix.one_mulVec, neg_add, mul_one]

/-! ### Orthonormality of every ground transform in a proper model -/

theorem calcGroundTransform_orthonormal (m : Model) (s : State)
    (hm : m.proper) (hs : s.proper) (i : ℕ) :
    (m.calcGroundTransform s i).orthonormal := by
  induction i using Nat.strong_induction_on with
  | _ i ih =>
    cases h : m.frames i with
    | grounded =>
      rw [calcGroundTransform_grounded m s i h]
      exact hs i
    | attached p off =>
      rw [calcGroundTransform_attached m s i p off h]
      exact Transform.orthonormal_compose _ _ (ih p (m.wf i p off h)) (hm i p off h)

/-! ### Rotation-only dependence of ground transforms -/

theorem calcGroundTransform_R_congr (m1 m2 : Model) (s1 s2 : State)
    (hm : ∀ k, FrameKind.rotEq (m1.frames k) (m2.frames k))
    (hs : ∀ k, (s1.pose k).R = (s2.pose k).R) (i : ℕ) :
    (m1.calcGroundTransform s1 i).R = (m2.calcGroundTransform s2 i).R := by
  induction i using Nat.strong_induction_on with
  | _ i ih =>
    cases h1 : m1.frames i with
    | grounded =>
      cases h2 : m2.frames i with
      | grounded =>
        rw [calcGroundTransform_grounded m1 s1 i h1,
          calcGroundTransform_grounded m2 s2 i h2]
        exact hs i
      | attached q off2 =>
        have := hm i
        rw [h1, h2] at this
        exact absurd this (by simp [FrameKind.rotEq])
    | attached p off1 =>
      cases h2 : m2.frames i with
      | grounded =>
        have := hm i
        rw [h1, h2] at this
        exact absurd this (by simp [FrameKind.rotEq])
      | attached q off2 =>
        have hpq : p = q ∧ off1.R = off2.R := by
          have := hm i
          rw [h1, h2] at this
          exact this
        rw [calcGroundTransform_attached m1 s1 i p off1 h1,
          calcGroundTransform_attached m2 s2 i q off2 h2]
        simp only [Transform.compose]
        rw [ih p (m1.wf i p off1 h1), hpq.1, hpq.2]

/-! ### Base frames end at grounded frames -/

theorem frames_findBaseFrame_grounded (m : Model) (i : ℕ) :
    m.frames (m.findBaseFrame i) = .grounded := by
  induction i using Nat.strong_induction_on with
  | _ i ih =>
    cases h : m.frames i with
    | grounded => rw [findBaseFrame_grounded m i h]; exact h
    | attached p off =>
      rw [findBaseFrame_attached m i p off h]
      exact ih p (m.wf i p off h)

/-! ### Cache lookup after insertion -/

theorem Cache.lookup_cons_self (c : Cache) (i stamp : ℕ) (X : Transform) :
    Cache.lookup ⟨(i, stamp, X) :: c.entries⟩ i stamp = some X := by
  simp [Cache.lookup, List.find?]

/-! ### Fuel adequacy of the bounded traversals -/

theorem calcGroundTransformFuel_adequate (m : Model) (s : State) :
    ∀ fuel i, m.depth i < fuel →
      m.calcGroundTransformFuel s fuel i = some (m.calcGroundTransform s i) := by
  intro fuel
  induction fuel with
  | zero => intro i hi; omega
  | succ fuel ih =>
    intro i hi
    cases h : m.frames i with
    | grounded =>
      simp [Model.calcGroundTransformFuel, h,
        calcGroundTransform_grounded m s i h]
    | attached p off =>
      have hd : m.depth p < fuel := by
        have := depth_attached m i p off h
        omega
      simp [Model.calcGroundTransformFuel, h, ih p hd,
        calcGroundTransform_attached m s i p off h]

theorem findBaseFrameFuel_adequate (m : Model) :
    ∀ fuel i, m.depth i < fuel →
      m.findBaseFrameFuel fuel i = some (m.findBaseFrame i) := by
  intro fuel
  induction fuel with
  | zero => intro i hi; omega
  | succ fuel ih =>
    intro i hi
    cases h : m.frames i with
    | grounded =>
      simp [Model.findBaseFrameFuel, h, findBaseFrame_grounded m i h]
    | attached p off =>
      have hd : m.depth p < fuel := by
        have := depth_attached m i p off h
        omega
      simp [Model.findBaseFrameFuel, h, ih p hd,
        findBaseFrame_attached m i p off h]

theorem findTransformInBaseFrameFuel_adequate (m : Model) :
    ∀ fuel i, m.depth i < fuel →
      m.findTransformInBaseFrameFuel fuel i =
        some (m.findTransformInBaseFrame i) := by
  intro fuel
  induction fuel with
  | zero => intro i hi; omega
  | succ fuel ih =>
    intro i hi
    cases h : m.frames i with
    | grounded =>
      simp [Model.findTransformInBaseFrameFuel, h,
        findTransformInBaseFrame_grounded m i h]
    | attached p off =>
      have hd : m.depth p < fuel := by
        have := depth_attached m i p off h
        omega
      simp [Model.findTransformInBaseFrameFuel, h, ih p hd,
        findTransformInBaseFrame_attached m i p off h]

/-! ### Length preservation by orthonormal rotations -/

theorem normSq_mulVec (R : Mat3) (hR : R.transpose * R = 1) (v : Vec3) :
    normSq (R.mulVec v) = normSq v := by
  unfold normSq
  calc Matrix.dotProduct (R.mulVec v) (R.mulVec v)
      = Matrix.dotProduct (Matrix.vecMul (R.mulVec v) R) v :=
        Matrix.dotProduct_mulVec _ R v
    _ = Matrix.dotProduct (R.transpose.mulVec (R.mulVec v)) v := by
        rw [Matrix.mulVec_transpose]
    _ = Matrix.dotProduct v v := by
        rw [Matrix.mulVec_mulVec, hR, Matrix.one_mulVec]

/-! ### Facts about the concrete witness data -/

theorem offW_orthonormal : offW.orthonormal := by
  constructor <;> simp [offW]

theorem WM_frames_zero : WM.frames 0 = .grounded := rfl

theorem WM_frames_one : WM.frames 1 = .attached 0 offW := rfl

theorem WM_proper : WM.proper := by
  intro i p off h
  by_cases hi : i = 1
  · subst hi
    rw [WM_frames_one] at h
    injection h with h1 h2
    subst h1
    subst h2
    exact offW_orthonormal
  · simp [WM, hi] at h

theorem SW_proper : SW.proper :=
  fun _ => Transform.orthonormal_identity

theorem WM_depth_zero : WM.depth 0 = 0 :=
  depth_grounded WM 0 WM_frames_zero

theorem WM_depth_one : WM.depth 1 = 1 := by
  rw [depth_attached WM 1 0 offW WM_frames_one, WM_depth_zero]

/-! ### The claims -/

/-- Claim C1: for every state and every pair of frames, `findTransformBetween`
returns exactly `inverse(X_GA) ∘ X_GF`, both sides coming from
`getGroundTransform`, with ground as the pivot. -/
theorem spec_C1 (m : Model) (s : State) (i other : ℕ) :
    m.findTransformBetween s i other =
      Transform.compose (Transform.inverse (m.getGroundTransform s other))
        (m.getGroundTransform s i) := rfl

/-- Claim C2: `expressVectorInAnotherFrame` returns
`rotation(findTransformBetween) * vec`, applying only the rotational
component; the result is unchanged under any change of the translation
offsets (of poses and of attached-frame offsets) that keeps all rotations
fixed. -/
theorem spec_C2 (m m2 : Model) (s s2 : State) (vec : Vec3) (i other : ℕ)
    (hm : ∀ k, FrameKind.rotEq (m.frames k) (m2.frames k))
    (hs : ∀ k, (s.pose k).R = (s2.pose k).R) :
    m.expressVectorInAnotherFrame s vec i other =
      (m.findTransformBetween s i other).R.mulVec vec ∧
    m.expressVectorInAnotherFrame s vec i other =
      m2.expressVectorInAnotherFrame s2 vec i other := by
  constructor
  · rfl
  · unfold Model.expressVectorInAnotherFrame Model.findTransformBetween
      Model.getGroundTransform
    simp only [Transform.compose, Transform.inverse]
    rw [calcGroundTransform_R_congr m m2 s s2 hm hs i,
      calcGroundTransform_R_congr m m2 s s2 hm hs other]

/-- Witness for claim C2, at the concrete two-frame model: the second model
and state differ from the first only in translations. -/
theorem spec_C2_witness :
    WM.expressVectorInAnotherFrame SW vecW 1 0 =
      (WM.findTransformBetween SW 1 0).R.mulVec vecW ∧
    WM.expressVectorInAnotherFrame SW vecW 1 0 =
      WM2.expressVectorInAnotherFrame SW2 vecW 1 0 :=
  spec_C2 WM WM2 SW SW2 vecW 1 0
    (by
      intro k
      by_cases hk : k = 1
      · subst hk
        simp [WM, WM2, FrameKind.rotEq, offW, offW2]
      · simp [WM, WM2, hk, FrameKind.rotEq])
    (by
      intro k
      simp [SW, SW2, Transform.identity])

/-- Claim C3: `findLocationInAnotherFrame` returns the full homogeneous
application `X_AF * point` — rotate then translate — where
`X_AF = findTransformBetween`. -/
theorem spec_C3 (m : Model) (s : State) (point : Vec3) (i other : ℕ) :
    m.findLocationInAnotherFrame s point i other =
      (m.findTransformBetween s i other).R.mulVec point +
        (m.findTransformBetween s i other).p := rfl

/-- Claim C4: the memoizing ground-transform query populates the
per-(frame identity, state stamp) cache as a side effect only — under a
consistent cache the returned value is the underlying ground transform —
and of two consecutive calls on the same frame and stamp, the second
returns the identical result, leaves the cache unchanged, and does not
re-invoke the underlying computation (its counter is zero). -/
theorem spec_C4 (m : Model) (s : State) (i : ℕ) (c : Cache)
    (hc : c.consistent m s) :
    (m.getGroundTransformCached s i c).1 = m.calcGroundTransform s i ∧
    (m.getGroundTransformCached s i
        (m.getGroundTransformCached s i c).2.1).1 =
      (m.getGroundTransformCached s i c).1 ∧
    (m.getGroundTransformCached s i
        (m.getGroundTransformCached s i c).2.1).2.1 =
      (m.getGroundTransformCached s i c).2.1 ∧
    (m.getGroundTransformCached s i
        (m.getGroundTransformCached s i c).2.1).2.2 = 0 := by
  cases hl : c.lookup i s.stamp with
  | some X =>
    have hX : X = m.calcGroundTransform s i := by
      unfold Cache.lookup at hl
      obtain ⟨e, hfind, he⟩ := Option.map_eq_some'.mp hl
      have hmem := List.mem_of_find?_eq_some hfind
      have hpred := List.find?_some hfind
      simp only [Bool.and_eq_true, beq_iff_eq] at hpred
      rw [← he, hc e hmem hpred.2, hpred.1]
    simp [Model.getGroundTransformCached, hl, hX]
  | none =>
    simp [Model.getGroundTransformCached, hl, Cache.lookup_cons_self]

/-- Witness for claim C4, starting from the empty cache (vacuously
consistent) at the concrete two-frame model. -/
theorem spec_C4_witness :
    (WM.getGroundTransformCached SW 1 emptyCache).1 =
      WM.calcGroundTransform SW 1 ∧
    (WM.getGroundTransformCached SW 1
        (WM.getGroundTransformCached SW 1 emptyCache).2.1).1 =
      (WM.getGroundTransformCached SW 1 emptyCache).1 ∧
    (WM.getGroundTransformCached SW 1
        (WM.getGroundTransformCached SW 1 emptyCache).2.1).2.1 =
      (WM.getGroundTransformCached SW 1 emptyCache).2.1 ∧
    (WM.getGroundTransformCached SW 1
        (WM.getGroundTransformCached SW 1 emptyCache).2.1).2.2 = 0 :=
  spec_C4 WM SW 1 emptyCache (by intro e he; simp [emptyCache] at he)

/-- Claim C5: for every state and frame, `findTransformBetween` of a frame
with itself is the identity transform (given the data-model invariant that
all rotations are orthonormal). -/
theorem spec_C5 (m : Model) (s : State) (i : ℕ)
    (hm : m.proper) (hs : s.proper) :
    m.findTransformBetween s i i = Transform.identity := by
  unfold Model.findTransformBetween Model.getGroundTransform
  exact Transform.inverse_compose_self _
    (calcGroundTransform_orthonormal m s hm hs i)

/-- Witness for claim C5 at the concrete two-frame model. -/
theorem spec_C5_witness : WM.findTransformBetween SW 1 1 = Transform.identity :=
  spec_C5 WM SW 1 WM_proper SW_proper

/-- Claim C6: for every state and frames F and A,
`findTransformBetween(s, A)` on F equals the inverse of
`findTransformBetween(s, F)` on A (given the data-model invariant that all
rotations are orthonormal). -/
theorem spec_C6 (m : Model) (s : State) (i other : ℕ)
    (hm : m.proper) (hs : s.proper) :
    m.findTransformBetween s i other =
      Transform.inverse (m.findTransformBetween s other i) := by
  have hXF := calcGroundTransform_orthonormal m s hm hs i
  have hXA := calcGroundTransform_orthonormal m s hm hs other
  unfold Model.findTransformBetween Model.getGroundTransform
  rw [Transform.inverse_compose _ _ (Transform.orthonormal_inverse _ hXF) hXA,
    Transform.inverse_inverse _ hXF]

/-- Witness for claim C6 at the concrete two-frame model. -/
theorem spec_C6_witness :
    WM.findTransformBetween SW 1 0 =
      Transform.inverse (WM.findTransformBetween SW 0 1) :=
  spec_C6 WM SW 1 0 WM_proper SW_proper

/-- Claim C7: `findBaseFrame` is idempotent — resolving the base of an
already-resolved base frame returns that frame itself. -/
theorem spec_C7 (m : Model) (i : ℕ) :
    m.findBaseFrame (m.findBaseFrame i) = m.findBaseFrame i :=
  findBaseFrame_grounded m _ (frames_findBaseFrame_grounded m i)

/-- Claim C8: a grounded frame is its own base and its transform in its
base frame is the identity; for an attached (non-base) frame the transform
in the base frame composes the parent's base transform with the frame's
fixed local offset, child-first. -/
theorem spec_C8 (m : Model) (g i p : ℕ) (off : Transform) :
    (m.frames g = .grounded →
      m.findBaseFrame g = g ∧
      m.findTransformInBaseFrame g = Transform.identity) ∧
    (m.frames i = .attached p off →
      m.findTransformInBaseFrame i =
        Transform.compose (m.findTransformInBaseFrame p) off) := by
  constructor
  · intro hg
    exact ⟨findBaseFrame_grounded m g hg,
      findTransformInBaseFrame_grounded m g hg⟩
  · intro hi
    exact findTransformInBaseFrame_attached m i p off hi

/-- Witness for claim C8 at the concrete two-frame model: frame 0 is
grounded and frame 1 is attached to it with offset `offW`. -/
theorem spec_C8_witness :
    (WM.findBaseFrame 0 = 0 ∧
      WM.findTransformInBaseFrame 0 = Transform.identity) ∧
    WM.findTransformInBaseFrame 1 =
      Transform.compose (WM.findTransformInBaseFrame 0) offW :=
  ⟨(spec_C8 WM 0 1 0 offW).1 WM_frames_zero,
    (spec_C8 WM 0 1 0 offW).2 WM_frames_one⟩

/-- Claim C9: under the acyclic-forest topology every exposed operation
terminates with cost bounded by the frame's ancestor-chain depth — with
fuel exceeding that depth, each fuel-bounded operation succeeds and returns
the unbounded operation's value. -/
theorem spec_C9 (m : Model) (s : State) (vec point : Vec3)
    (i other fuel : ℕ) (hi : m.depth i < fuel) (ho : m.depth other < fuel) :
    m.getGroundTransformFuel s fuel i = some (m.getGroundTransform s i) ∧
    m.findTransformBetweenFuel s fuel i other =
      some (m.findTransformBetween s i other) ∧
    m.expressVectorInAnotherFrameFuel s vec fuel i other =
      some (m.expressVectorInAnotherFrame s vec i other) ∧
    m.findLocationInAnotherFrameFuel s point fuel i other =
      some (m.findLocationInAnotherFrame s point i other) ∧
    m.findBaseFrameFuel fuel i = some (m.findBaseFrame i) ∧
    m.findTransformInBaseFrameFuel fuel i =
      some (m.findTransformInBaseFrame i) := by
  have hci := calcGroundTransformFuel_adequate m s fuel i hi
  have hco := calcGroundTransformFuel_adequate m s fuel other ho
  refine ⟨hci, ?_, ?_, ?_, findBaseFrameFuel_adequate m fuel i hi,
    findTransformInBaseFrameFuel_adequate m fuel i hi⟩
  · unfold Model.findTransformBetweenFuel
    rw [hci, hco]
    rfl
  · unfold Model.expressVectorInAnotherFrameFuel Model.findTransformBetweenFuel
    rw [hci, hco]
    rfl
  · unfold Model.findLocationInAnotherFrameFuel Model.findTransformBetweenFuel
    rw [hci, hco]
    rfl

/-- Witness for claim C9 at the concrete two-frame model, with fuel 2
exceeding both ancestor-chain depths. -/
theorem spec_C9_witness :
    WM.depth 1 < 2 ∧ WM.depth 0 < 2 ∧
    (WM.getGroundTransformFuel SW 2 1 = some (WM.getGroundTransform SW 1) ∧
      WM.findTransformBetweenFuel SW 2 1 0 =
        some (WM.findTransformBetween SW 1 0) ∧
      WM.expressVectorInAnotherFrameFuel SW vecW 2 1 0 =
        some (WM.expressVectorInAnotherFrame SW vecW 1 0) ∧
      WM.findLocationInAnotherFrameFuel SW vecW 2 1 0 =
        some (WM.findLocationInAnotherFrame SW vecW 1 0) ∧
      WM.findBaseFrameFuel 2 1 = some (WM.findBaseFrame 1) ∧
      WM.findTransformInBaseFrameFuel 2 1 =
        some (WM.findTransformInBaseFrame 1)) :=
  ⟨by rw [WM_depth_one]; omega, by rw [WM_depth_zero]; omega,
    spec_C9 WM SW vecW vecW 1 0 2 (by rw [WM_depth_one]; omega)
      (by rw [WM_depth_zero]; omega)⟩

/-- Claim C10: `expressVectorInAnotherFrame` preserves Euclidean length,
because only an orthonormal rotation is applied (given the data-model
invariant that all rotations are orthonormal). -/
theorem spec_C10 (m : Model) (s : State) (vec : Vec3) (i other : ℕ)
    (hm : m.proper) (hs : s.proper) :
    enorm (m.expressVectorInAnotherFrame s vec i other) = enorm vec := by
  have hXF := calcGroundTransform_orthonormal m s hm hs i
  have hXA := calcGroundTransform_orthonormal m s hm hs other
  have horth : (m.findTransformBetween s i other).orthonormal :=
    Transform.orthonormal_compose _ _
      (Transform.orthonormal_inverse _ hXA) hXF
  unfold enorm Model.expressVectorInAnotherFrame
  rw [normSq_mulVec _ horth.1 vec]

/-- Witness for claim C10 at the concrete two-frame model. -/
theorem spec_C10_witness :
    enorm (WM.expressVectorInAnotherFrame SW vecW 1 0) = enorm vecW :=
  spec_C10 WM SW vecW 1 0 WM_proper SW_proper

end FrameSpec
